import Mathlib

/-!
Shallow embedding of `PensionCalculator` (src/calculator.py) together with
proofs about its schedule-generation pipeline.

Dates are (year, month, day) triples; pandas `Timestamp` comparison on valid
dates is the lexicographic calendar order, encoded here through `Date.key`.
Monetary amounts (numpy float64 in the source) are modelled as exact
rationals, and `np.round(x, 2)` as round-half-even at two decimal places.
-/

namespace Pension

/-- Round-half-even to an integer: the rounding mode of `np.round`. -/
def roundHalfEven (q : ℚ) : ℤ :=
  if q - ⌊q⌋ < 1/2 then ⌊q⌋
  else if 1/2 < q - ⌊q⌋ then ⌊q⌋ + 1
  else if ⌊q⌋ % 2 = 0 then ⌊q⌋ else ⌊q⌋ + 1

/-- Model of `np.round(x, 2)`: round-half-even at two decimal places. -/
def round2 (q : ℚ) : ℚ := (roundHalfEven (q * 100) : ℚ) / 100

/-- Gregorian leap-year test. -/
def isLeap (y : ℤ) : Bool := y % 4 == 0 && (y % 100 != 0 || y % 400 == 0)

/-- Number of days of month `m` of year `y`. -/
def daysInMonth (y : ℤ) (m : ℕ) : ℕ :=
  if m = 2 then (if isLeap y then 29 else 28)
  else if m = 4 ∨ m = 6 ∨ m = 9 ∨ m = 11 then 30
  else 31

structure Date where
  year : ℤ
  month : ℕ
  day : ℕ
deriving DecidableEq, Repr

/-- Encoding of the lexicographic (year, month, day) order: on valid dates
(month ≤ 12, day ≤ 31) it is strictly monotone in the calendar order, so a
`Timestamp` comparison is a comparison of `key`. -/
def Date.key (d : Date) : ℤ := d.year * 512 + d.month * 32 + d.day

def Date.valid (d : Date) : Prop :=
  1 ≤ d.month ∧ d.month ≤ 12 ∧ 1 ≤ d.day ∧ d.day ≤ daysInMonth d.year d.month

instance (d : Date) : Decidable d.valid := by
  unfold Date.valid
  infer_instance

/-- pandas `Timestamp.is_month_end`. -/
def Date.is_month_end (d : Date) : Prop := d.day = daysInMonth d.year d.month

instance (d : Date) : Decidable d.is_month_end := by
  unfold Date.is_month_end
  infer_instance

/-- `PensionCalculator._get_last_day_of_month`: when the date is not already a
month end, `pd.offsets.MonthEnd()` moves it to the last day of its month. -/
def get_last_day_of_month (d : Date) : Date :=
  if d.is_month_end then d else { d with day := daysInMonth d.year d.month }

/-- `relativedelta(months = n)` added to a date: total-month arithmetic with
floor divmod (the divisor 12 is positive, so Euclidean division coincides
with Python floor division) and the day clamped to the target month. -/
def Date.addMonths (d : Date) (n : ℤ) : Date :=
  let t : ℤ := d.year * 12 + ((d.month : ℤ) - 1) + n
  let y : ℤ := t / 12
  let m : ℕ := (t % 12).toNat + 1
  { year := y, month := m, day := min d.day (daysInMonth y m) }

/-- `relativedelta(years = n)` added to a date: the day is clamped to the
target month (Feb 29 → Feb 28 in a non-leap year). -/
def Date.addYears (d : Date) (n : ℤ) : Date :=
  { year := d.year + n, month := d.month, day := min d.day (daysInMonth (d.year + n) d.month) }

/-- Adding one day (`relativedelta(days = 1)` applies a one-day `timedelta`). -/
def Date.addOneDay (d : Date) : Date :=
  if d.day < daysInMonth d.year d.month then { d with day := d.day + 1 }
  else if d.month < 12 then { year := d.year, month := d.month + 1, day := 1 }
  else { year := d.year + 1, month := 1, day := 1 }

/-- The month-adjustment loop of `relativedelta.__init__` when `dt1 ≥ dt2`:
decrement the raw month count while `dt1 < dt2 + months`. -/
def monthsDecLoop (b a : Date) : ℕ → ℤ → ℤ
  | 0, m => m
  | fuel+1, m =>
    if Date.key a < Date.key (b.addMonths m) then monthsDecLoop b a fuel (m - 1) else m

/-- The month-adjustment loop of `relativedelta.__init__` when `dt1 < dt2`:
increment the raw month count while `dt1 > dt2 + months`. -/
def monthsIncLoop (b a : Date) : ℕ → ℤ → ℤ
  | 0, m => m
  | fuel+1, m =>
    if Date.key (b.addMonths m) < Date.key a then monthsIncLoop b a fuel (m + 1) else m

/-- The adjusted whole-month difference computed by `relativedelta(a, b)`.
The fuel bounds the adjustment loop, which moves the raw month count by at
most one step per iteration towards the fixed point. -/
def wholeMonths (b a : Date) : ℤ :=
  let m0 : ℤ := (a.year - b.year) * 12 + ((a.month : ℤ) - (b.month : ℤ))
  if Date.key a < Date.key b then monthsIncLoop b a (m0.natAbs + 2) m0
  else monthsDecLoop b a (m0.natAbs + 2) m0

/-- `relativedelta(a, b).years`: `_set_months` splits the adjusted month
count with a sign-aware divmod by 12. -/
def deltaYears (b a : Date) : ℤ :=
  let m := wholeMonths b a
  if 11 < m.natAbs then
    (if m < 0 then -(((m.natAbs / 12 : ℕ)) : ℤ) else ((m.natAbs / 12 : ℕ) : ℤ))
  else 0

/-- One row of the joined user-data frame (`_create_user_data`): contract
number, birthdate, pension age and initial pension amount. The sex column is
not used by the calculation and is omitted. -/
structure Contract where
  contract : ℕ
  birthdate : Date
  pension_start : ℕ
  pension_amount : ℚ
deriving DecidableEq, Repr

/-- The three entries of the `params` dictionary. -/
structure Params where
  start_date : Date
  indexing_rate : ℚ
  max_age : ℕ
deriving DecidableEq, Repr

/-- `self._indexing_month = {1: params[PENSION_INDEXING_RATE]}`. -/
def indexing_month (p : Params) : List (ℕ × ℚ) := [(1, p.indexing_rate)]

/-- `self._indexing_month.get(m, 0)`. -/
def rate_for_month (p : Params) (m : ℕ) : ℚ := ((indexing_month p).lookup m).getD 0

/-- `PensionCalculator._calculate_start_date`: the report date when the
client is already a pensioner, otherwise the last day of the month of
birthdate plus the pension age. -/
def calculate_start_date (p : Params) (c : Contract) : Date :=
  if (c.pension_start : ℤ) ≤ deltaYears c.birthdate p.start_date then p.start_date
  else get_last_day_of_month (c.birthdate.addYears c.pension_start)

/-- The `end_date` column computed by
`PensionCalculator._preprocess_contract_data`:
`row.birthdate + relativedelta(years=params[MAX_AGE], days=1)`. -/
def calculate_end_date (p : Params) (c : Contract) : Date :=
  (c.birthdate.addYears p.max_age).addOneDay

/-- Both columns added by `_preprocess_contract_data`. -/
def preprocess_contract_data (p : Params) (c : Contract) : Date × Date :=
  (calculate_start_date p c, calculate_end_date p c)

/-- One appended row of the result: contract number, payment date, amount. -/
structure Entry where
  contract : ℕ
  payment_date : Date
  amount : ℚ
deriving DecidableEq, Repr

/-- The payment-date advance at the bottom of the loop:
`self._get_last_day_of_month(payment_date + relativedelta(months=1))`. -/
def nextPaymentDate (d : Date) : Date := get_last_day_of_month (d.addMonths 1)

/-- The `while payment_date <= row.end_date` loop of `calculate`, with
explicit fuel; `genFuel` below always supplies enough (see the
fuel-sufficiency theorem). -/
def payRows (p : Params) (cid : ℕ) (endD : Date) : ℕ → Date → ℚ → List Entry
  | 0, _, _ => []
  | fuel+1, d, amt =>
    if d.key ≤ endD.key then
      let amt2 := round2 (amt * (1 + rate_for_month p d.month))
      { contract := cid, payment_date := d, amount := amt2 } ::
        payRows p cid endD fuel (nextPaymentDate d) amt2
    else []

/-- Fuel that always suffices for `payRows` (each loop iteration strictly
increases `Date.key`, which is bounded by the end date's key). -/
def genFuel (endD d : Date) : ℕ := (endD.key + 1 - d.key).toNat

/-- All rows `calculate` appends for one contract of the frame. -/
def contractRows (p : Params) (c : Contract) : List Entry :=
  payRows p c.contract (calculate_end_date p c)
    (genFuel (calculate_end_date p c) (calculate_start_date p c))
    (calculate_start_date p c) c.pension_amount

/-- Non-strict comparison on the `sort_values` key (payment date, contract). -/
def entryLE (e1 e2 : Entry) : Prop :=
  e1.payment_date.key < e2.payment_date.key ∨
    (e1.payment_date.key = e2.payment_date.key ∧ e1.contract ≤ e2.contract)

/-- Strict lexicographic comparison on (payment date, contract). -/
def entryLT (e1 e2 : Entry) : Prop :=
  e1.payment_date.key < e2.payment_date.key ∨
    (e1.payment_date.key = e2.payment_date.key ∧ e1.contract < e2.contract)

/-- Two entries agree on the whole `sort_values` key. Its negation: the keys
(payment date, contract number) differ. -/
def keyNe (e1 e2 : Entry) : Prop :=
  ¬(e1.payment_date.key = e2.payment_date.key ∧ e1.contract = e2.contract)

instance : DecidableRel entryLE := by
  unfold entryLE
  infer_instance

instance : DecidableRel entryLT := by
  unfold entryLT
  infer_instance

instance : IsTotal Entry entryLE := by
  constructor
  intro a b
  unfold entryLE
  omega

instance : IsTrans Entry entryLE := by
  constructor
  intro a b c
  unfold entryLE
  omega

instance : IsTrans Entry entryLT := by
  constructor
  intro a b c
  unfold entryLT
  omega

/-- The assembled frame of `calculate`: rows for every contract in frame
order, then `sort_values` by (payment date, contract number). The sort keys
are unique for valid inputs, so any comparison sort yields this list. -/
def calcLedger (p : Params) (cs : List Contract) : List Entry :=
  List.insertionSort entryLE (cs.flatMap (contractRows p))

/-- The exceptions `calculate` can raise: truth-testing a
`pandas.DataFrame` raises `ValueError: The truth value of a DataFrame is
ambiguous` (while `bool(None)` is just `False`), and sorting an empty
frame raises `KeyError`, because `pd.DataFrame([])` has no columns to sort
by. -/
inductive PyError where
  | truthValueAmbiguous
  | keyErrorSortColumn
deriving DecidableEq, Repr

def dfTruth : Option (List Entry) → Except PyError Bool
  | none => .ok false
  | some _ => .error .truthValueAmbiguous

/-- The mutable `self._result_df` cache (initially `None`). -/
structure CalcState where
  result_df : Option (List Entry)
deriving DecidableEq, Repr

/-- `PensionCalculator.calculate` as a state transformer: the
`if self._result_df:` guard, then preprocessing, row generation and the
final sort, storing the result in `self._result_df`. When no payment row
was generated, `pd.DataFrame(data)` is empty and has no columns, so
`sort_values` raises `KeyError` before the cache field is assigned. -/
def calculate (p : Params) (cs : List Contract) (s : CalcState) :
    Except PyError (List Entry × CalcState) :=
  match dfTruth s.result_df with
  | .error e => .error e
  | .ok true => .ok (s.result_df.getD [], s)
  | .ok false =>
    if cs.flatMap (contractRows p) = [] then .error .keyErrorSortColumn
    else
      let res := calcLedger p cs
      .ok (res, { result_df := some res })

/-- Start-date rule as the spec words it: for a client already of pension
age, the report date normalized to the last calendar day of its month. -/
def start_date_spec_claimed (report birth : Date) (psa : ℕ) : Date :=
  if (psa : ℤ) ≤ deltaYears birth report then get_last_day_of_month report
  else get_last_day_of_month (birth.addYears psa)

/-- Start-date rule as amended: for a client already of pension age the
report date is used as-is, with no month-end normalization. -/
def start_date_amended (report birth : Date) (psa : ℕ) : Date :=
  if (psa : ℤ) ≤ deltaYears birth report then report
  else get_last_day_of_month (birth.addYears psa)

/-- End-date formula in the spec's words: birthdate + max-age years + one
day, with no month-end normalization. -/
def end_date_spec (birth : Date) (maxAge : ℕ) : Date := (birth.addYears maxAge).addOneDay

/-- Concrete run parameters: report date 2024-01-01 (not a month end),
indexing rate 5 percent, maximum age 24. -/
def pW : Params := { start_date := ⟨2024, 1, 1⟩, indexing_rate := 1/20, max_age := 24 }

/-- Concrete contract: born 2000-01-01, pension age 20, amount 1000. -/
def cW : Contract :=
  { contract := 1, birthdate := ⟨2000, 1, 1⟩, pension_start := 20, pension_amount := 1000 }

/-- A second concrete contract differing from `cW` only in its number. -/
def cW2 : Contract :=
  { contract := 2, birthdate := ⟨2000, 1, 1⟩, pension_start := 20, pension_amount := 1000 }

/-- Parameters whose maximum age puts the end date before the start date. -/
def pLow : Params := { start_date := ⟨2024, 1, 1⟩, indexing_rate := 1/20, max_age := 10 }

/-- The single row generated for `cW` under `pW`. -/
def eW : Entry := { contract := 1, payment_date := ⟨2024, 1, 1⟩, amount := 1050 }

theorem floor_le_roundHalfEven (q : ℚ) : ⌊q⌋ ≤ roundHalfEven q := by
  unfold roundHalfEven
  split_ifs <;> omega

theorem roundHalfEven_le_floor_add_one (q : ℚ) : roundHalfEven q ≤ ⌊q⌋ + 1 := by
  unfold roundHalfEven
  split_ifs <;> omega

theorem roundHalfEven_intCast (n : ℤ) : roundHalfEven (n : ℚ) = n := by
  unfold roundHalfEven
  rw [Int.floor_intCast]
  norm_num

theorem roundHalfEven_mono {q r : ℚ} (h : q ≤ r) :
    roundHalfEven q ≤ roundHalfEven r := by
  rcases lt_or_eq_of_le (Int.floor_mono h) with hf | hf
  · calc roundHalfEven q ≤ ⌊q⌋ + 1 := roundHalfEven_le_floor_add_one q
      _ ≤ ⌊r⌋ := by omega
      _ ≤ roundHalfEven r := floor_le_roundHalfEven r
  · unfold roundHalfEven
    rw [hf]
    split_ifs <;> first | omega | linarith

theorem round2_mono {q r : ℚ} (h : q ≤ r) : round2 q ≤ round2 r := by
  unfold round2
  have h1 := roundHalfEven_mono (mul_le_mul_of_nonneg_right h (by norm_num : (0:ℚ) ≤ 100))
  have h2 : ((roundHalfEven (q * 100) : ℤ) : ℚ) ≤ ((roundHalfEven (r * 100) : ℤ) : ℚ) := by
    exact_mod_cast h1
  linarith

theorem round2_zero : round2 0 = 0 := by
  unfold round2
  rw [zero_mul, show ((0 : ℚ)) = ((0 : ℤ) : ℚ) by norm_num, roundHalfEven_intCast]
  norm_num

theorem round2_nonneg {q : ℚ} (h : 0 ≤ q) : 0 ≤ round2 q := by
  have h1 := round2_mono h
  rw [round2_zero] at h1
  exact h1

theorem round2_idem (q : ℚ) : round2 (round2 q) = round2 q := by
  unfold round2
  rw [div_mul_cancel₀ _ (by norm_num : (100 : ℚ) ≠ 0), roundHalfEven_intCast]

theorem round2_fix_le {a x : ℚ} (hfix : round2 a = a) (h : a ≤ x) : a ≤ round2 x := by
  calc a = round2 a := hfix.symm
    _ ≤ round2 x := round2_mono h

theorem daysInMonth_bounds (y : ℤ) (m : ℕ) :
    28 ≤ daysInMonth y m ∧ daysInMonth y m ≤ 31 := by
  unfold daysInMonth
  split_ifs <;> omega

/-- On valid dates, `key` comparison is exactly the lexicographic calendar
order used by `Timestamp` comparison. -/
theorem Date.key_lt_iff {d1 d2 : Date} (h1 : d1.valid) (h2 : d2.valid) :
    d1.key < d2.key ↔
      (d1.year < d2.year ∨ (d1.year = d2.year ∧ (d1.month < d2.month ∨
        (d1.month = d2.month ∧ d1.day < d2.day)))) := by
  obtain ⟨a1, b1, c1, e1⟩ := h1
  obtain ⟨a2, b2, c2, e2⟩ := h2
  have f1 := daysInMonth_bounds d1.year d1.month
  have f2 := daysInMonth_bounds d2.year d2.month
  unfold Date.key
  omega

theorem get_last_day_of_month_day (d : Date) :
    (get_last_day_of_month d).day = daysInMonth d.year d.month := by
  unfold get_last_day_of_month
  split_ifs with h
  · exact h
  · rfl

theorem get_last_day_of_month_year (d : Date) :
    (get_last_day_of_month d).year = d.year := by
  unfold get_last_day_of_month
  split_ifs <;> rfl

theorem get_last_day_of_month_month (d : Date) :
    (get_last_day_of_month d).month = d.month := by
  unfold get_last_day_of_month
  split_ifs <;> rfl

theorem get_last_day_of_month_is_month_end (d : Date) :
    (get_last_day_of_month d).is_month_end := by
  unfold Date.is_month_end
  rw [get_last_day_of_month_day, get_last_day_of_month_year, get_last_day_of_month_month]

theorem addMonths_one_year_month (d : Date) :
    (d.addMonths 1).year = (d.year * 12 + ((d.month : ℤ) - 1) + 1) / 12 ∧
      (d.addMonths 1).month = ((d.year * 12 + ((d.month : ℤ) - 1) + 1) % 12).toNat + 1 :=
  ⟨rfl, rfl⟩

theorem addMonths_one_spec (d : Date) (h1 : 1 ≤ d.month) (h2 : d.month ≤ 12) :
    ((d.addMonths 1).year = d.year ∧ (d.addMonths 1).month = d.month + 1 ∧ d.month ≤ 11) ∨
      ((d.addMonths 1).year = d.year + 1 ∧ (d.addMonths 1).month = 1 ∧ d.month = 12) := by
  obtain ⟨hy, hm⟩ := addMonths_one_year_month d
  omega

theorem nextPaymentDate_is_month_end (d : Date) : (nextPaymentDate d).is_month_end :=
  get_last_day_of_month_is_month_end (d.addMonths 1)

theorem nextPaymentDate_valid (d : Date) (h1 : 1 ≤ d.month) (h2 : d.month ≤ 12) :
    (nextPaymentDate d).valid := by
  have hs := addMonths_one_spec d h1 h2
  have hday := get_last_day_of_month_day (d.addMonths 1)
  have hyear := get_last_day_of_month_year (d.addMonths 1)
  have hmonth := get_last_day_of_month_month (d.addMonths 1)
  have hb := daysInMonth_bounds (d.addMonths 1).year (d.addMonths 1).month
  unfold nextPaymentDate Date.valid
  rw [hday, hyear, hmonth]
  omega

theorem key_lt_nextPaymentDate (d : Date) (h : d.valid) : d.key < (nextPaymentDate d).key := by
  obtain ⟨h1, h2, h3, h4⟩ := h
  have hs := addMonths_one_spec d h1 h2
  have hday := get_last_day_of_month_day (d.addMonths 1)
  have hyear := get_last_day_of_month_year (d.addMonths 1)
  have hmonth := get_last_day_of_month_month (d.addMonths 1)
  have hb := daysInMonth_bounds (d.addMonths 1).year (d.addMonths 1).month
  have hb2 := daysInMonth_bounds d.year d.month
  unfold nextPaymentDate Date.key
  rw [hday, hyear, hmonth]
  omega

theorem get_last_day_of_month_valid (d : Date) (h1 : 1 ≤ d.month) (h2 : d.month ≤ 12) :
    (get_last_day_of_month d).valid := by
  have hday := get_last_day_of_month_day d
  have hyear := get_last_day_of_month_year d
  have hmonth := get_last_day_of_month_month d
  have hb := daysInMonth_bounds d.year d.month
  unfold Date.valid
  rw [hday, hyear, hmonth]
  omega

theorem calculate_start_date_valid (p : Params) (c : Contract)
    (hrep : p.start_date.valid) (hb : c.birthdate.valid) :
    (calculate_start_date p c).valid := by
  unfold calculate_start_date
  split_ifs
  · exact hrep
  · exact get_last_day_of_month_valid (c.birthdate.addYears c.pension_start) hb.1 hb.2.1

theorem payRows_succ (p : Params) (cid : ℕ) (endD : Date) (fuel : ℕ) (d : Date) (a : ℚ) :
    payRows p cid endD (fuel+1) d a =
      if d.key ≤ endD.key then
        { contract := cid, payment_date := d,
          amount := round2 (a * (1 + rate_for_month p d.month)) } ::
          payRows p cid endD fuel (nextPaymentDate d)
            (round2 (a * (1 + rate_for_month p d.month)))
      else [] := rfl

theorem payRows_head (p : Params) (cid : ℕ) (endD : Date) (fuel : ℕ) (d : Date) (a : ℚ) :
    ∀ e ∈ (payRows p cid endD fuel d a).head?,
      e.payment_date = d ∧ e.contract = cid ∧
        e.amount = round2 (a * (1 + rate_for_month p d.month)) := by
  intro e he
  cases fuel with
  | zero => simp [payRows] at he
  | succ n =>
    rw [payRows_succ] at he
    by_cases hc : d.key ≤ endD.key
    · rw [if_pos hc] at he
      simp only [List.head?_cons, Option.mem_def, Option.some.injEq] at he
      subst he
      exact ⟨rfl, rfl, rfl⟩
    · rw [if_neg hc] at he
      simp at he

theorem payRows_le_endDate (p : Params) (cid : ℕ) (endD : Date) :
    ∀ fuel d a, ∀ e ∈ payRows p cid endD fuel d a, e.payment_date.key ≤ endD.key := by
  intro fuel
  induction fuel with
  | zero => intro d a e he; simp [payRows] at he
  | succ n ih =>
    intro d a e he
    rw [payRows_succ] at he
    by_cases hc : d.key ≤ endD.key
    · rw [if_pos hc] at he
      rcases List.mem_cons.mp he with h | h
      · subst h; exact hc
      · exact ih _ _ e h
    · rw [if_neg hc] at he
      simp at he

theorem payRows_empty (p : Params) (cid : ℕ) (endD : Date) (fuel : ℕ) (d : Date) (a : ℚ)
    (h : endD.key < d.key) : payRows p cid endD fuel d a = [] := by
  cases fuel with
  | zero => rfl
  | succ n => rw [payRows_succ, if_neg (by omega)]

theorem payRows_contract_id (p : Params) (cid : ℕ) (endD : Date) :
    ∀ fuel d a, ∀ e ∈ payRows p cid endD fuel d a, e.contract = cid := by
  intro fuel
  induction fuel with
  | zero => intro d a e he; simp [payRows] at he
  | succ n ih =>
    intro d a e he
    rw [payRows_succ] at he
    by_cases hc : d.key ≤ endD.key
    · rw [if_pos hc] at he
      rcases List.mem_cons.mp he with h | h
      · subst h; rfl
      · exact ih _ _ e h
    · rw [if_neg hc] at he
      simp at he

theorem payRows_chain_dates (p : Params) (cid : ℕ) (endD : Date) :
    ∀ fuel d a, d.valid →
      List.Chain' (fun e1 e2 =>
        e2.payment_date = nextPaymentDate e1.payment_date ∧
          e2.payment_date.is_month_end ∧
          e1.payment_date.key < e2.payment_date.key)
        (payRows p cid endD fuel d a) := by
  intro fuel
  induction fuel with
  | zero => intro d a _; simp [payRows]
  | succ n ih =>
    intro d a hd
    rw [payRows_succ]
    by_cases hc : d.key ≤ endD.key
    · rw [if_pos hc]
      refine List.chain'_cons'.mpr ⟨?_, ih _ _ (nextPaymentDate_valid d hd.1 hd.2.1)⟩
      intro y hy
      obtain ⟨hy1, _, _⟩ := payRows_head p cid endD n (nextPaymentDate d) _ y hy
      refine ⟨by rw [hy1], ?_, ?_⟩
      · rw [hy1]; exact nextPaymentDate_is_month_end d
      · rw [hy1]; exact key_lt_nextPaymentDate d hd
    · rw [if_neg hc]; exact List.chain'_nil

theorem payRows_chain_amounts (p : Params) (cid : ℕ) (endD : Date) :
    ∀ fuel d a,
      List.Chain' (fun e1 e2 =>
        e2.amount = round2 (e1.amount * (1 + rate_for_month p e2.payment_date.month)))
        (payRows p cid endD fuel d a) := by
  intro fuel
  induction fuel with
  | zero => intro d a; simp [payRows]
  | succ n ih =>
    intro d a
    rw [payRows_succ]
    by_cases hc : d.key ≤ endD.key
    · rw [if_pos hc]
      refine List.chain'_cons'.mpr ⟨?_, ih _ _⟩
      intro y hy
      obtain ⟨hy1, _, hy3⟩ := payRows_head p cid endD n (nextPaymentDate d) _ y hy
      rw [hy3, hy1]
    · rw [if_neg hc]; exact List.chain'_nil

theorem rate_for_month_eq (p : Params) (m : ℕ) :
    rate_for_month p m = if m = 1 then p.indexing_rate else 0 := by
  by_cases h : m = 1
  · subst h; rfl
  · rw [if_neg h]
    have hb : (m == 1) = false := beq_eq_false_iff_ne.mpr h
    simp [rate_for_month, indexing_month, List.lookup, hb]

theorem rate_for_month_nonneg (p : Params) (hr : 0 ≤ p.indexing_rate) (m : ℕ) :
    0 ≤ rate_for_month p m := by
  rw [rate_for_month_eq]
  split_ifs
  · exact hr
  · exact le_refl 0

theorem payRows_amounts_mono (p : Params) (cid : ℕ) (endD : Date)
    (hr : 0 ≤ p.indexing_rate) :
    ∀ fuel d a, 0 ≤ a →
      (∀ e ∈ payRows p cid endD fuel d a, 0 ≤ e.amount ∧ round2 e.amount = e.amount) ∧
        (round2 a = a → ∀ e ∈ (payRows p cid endD fuel d a).head?, a ≤ e.amount) ∧
        List.Chain' (fun e1 e2 => e1.amount ≤ e2.amount) (payRows p cid endD fuel d a) := by
  intro fuel
  induction fuel with
  | zero =>
    intro d a ha
    refine ⟨?_, ?_, ?_⟩ <;> simp [payRows]
  | succ n ih =>
    intro d a ha
    have hrm := rate_for_month_nonneg p hr d.month
    have hx : 0 ≤ a * (1 + rate_for_month p d.month) := mul_nonneg ha (by linarith)
    have ha2 : 0 ≤ round2 (a * (1 + rate_for_month p d.month)) := round2_nonneg hx
    have hfix2 := round2_idem (a * (1 + rate_for_month p d.month))
    obtain ⟨ih1, ih2, ih3⟩ :=
      ih (nextPaymentDate d) (round2 (a * (1 + rate_for_month p d.month))) ha2
    rw [payRows_succ]
    by_cases hc : d.key ≤ endD.key
    · rw [if_pos hc]
      refine ⟨?_, ?_, ?_⟩
      · intro e he
        rcases List.mem_cons.mp he with h | h
        · subst h; exact ⟨ha2, hfix2⟩
        · exact ih1 e h
      · intro hfa e he
        simp only [List.head?_cons, Option.mem_def, Option.some.injEq] at he
        subst he
        exact round2_fix_le hfa
          (le_mul_of_one_le_right ha (by linarith))
      · exact List.chain'_cons'.mpr ⟨fun y hy => ih2 hfix2 y hy, ih3⟩
    · rw [if_neg hc]
      refine ⟨?_, ?_, ?_⟩ <;> simp

theorem payRows_fuel_succ (p : Params) (cid : ℕ) (endD : Date) :
    ∀ fuel d a, d.valid → genFuel endD d ≤ fuel →
      payRows p cid endD (fuel+1) d a = payRows p cid endD fuel d a := by
  intro fuel
  induction fuel with
  | zero =>
    intro d a _ hf
    have hk : endD.key < d.key := by
      unfold genFuel at hf
      omega
    rw [payRows_succ, if_neg (by omega)]
    rfl
  | succ n ih =>
    intro d a hd hf
    have hlt := key_lt_nextPaymentDate d hd
    by_cases hc : d.key ≤ endD.key
    · rw [payRows_succ p cid endD (n+1) d a, if_pos hc,
        payRows_succ p cid endD n d a, if_pos hc]
      have hstep := ih (nextPaymentDate d) (round2 (a * (1 + rate_for_month p d.month)))
        (nextPaymentDate_valid d hd.1 hd.2.1)
        (by unfold genFuel at hf ⊢; omega)
      rw [hstep]
    · rw [payRows_empty p cid endD (n+1+1) d a (by omega),
        payRows_empty p cid endD (n+1) d a (by omega)]

theorem entryLT_keyNe {e1 e2 : Entry} (h : entryLT e1 e2) : keyNe e1 e2 := by
  unfold entryLT at h
  unfold keyNe
  omega

theorem keyNe_symm {e1 e2 : Entry} (h : keyNe e1 e2) : keyNe e2 e1 := by
  unfold keyNe at h ⊢
  omega

theorem contractRows_pairwise_lt (p : Params) (c : Contract)
    (hrep : p.start_date.valid) (hb : c.birthdate.valid) :
    List.Pairwise entryLT (contractRows p c) := by
  have hch := payRows_chain_dates p c.contract (calculate_end_date p c)
    (genFuel (calculate_end_date p c) (calculate_start_date p c))
    (calculate_start_date p c) c.pension_amount
    (calculate_start_date_valid p c hrep hb)
  have hch2 : List.Chain' entryLT (contractRows p c) :=
    List.Chain'.imp (fun _ _ h => Or.inl h.2.2) hch
  exact List.chain'_iff_pairwise.mp hch2

theorem rows_pairwise_keyNe (p : Params) (cs : List Contract)
    (hrep : p.start_date.valid) (hb : ∀ c ∈ cs, c.birthdate.valid)
    (hids : List.Pairwise (fun c1 c2 => c1.contract ≠ c2.contract) cs) :
    List.Pairwise keyNe (cs.flatMap (contractRows p)) := by
  induction cs with
  | nil => simp
  | cons c cs ih =>
    rw [List.flatMap_cons, List.pairwise_append]
    obtain ⟨hid1, hid2⟩ := List.pairwise_cons.mp hids
    refine ⟨?_, ?_, ?_⟩
    · exact (contractRows_pairwise_lt p c hrep (hb c (List.mem_cons_self c cs))).imp
        (fun h => entryLT_keyNe h)
    · exact ih (fun x hx => hb x (List.mem_cons_of_mem c hx)) hid2
    · intro a ha b hbm
      have hca : a.contract = c.contract :=
        payRows_contract_id p c.contract (calculate_end_date p c)
          (genFuel (calculate_end_date p c) (calculate_start_date p c))
          (calculate_start_date p c) c.pension_amount a ha
      obtain ⟨c2, hc2, hbc2⟩ := List.mem_flatMap.mp hbm
      have hcb : b.contract = c2.contract :=
        payRows_contract_id p c2.contract (calculate_end_date p c2)
          (genFuel (calculate_end_date p c2) (calculate_start_date p c2))
          (calculate_start_date p c2) c2.pension_amount b hbc2
      have hne : c.contract ≠ c2.contract := hid1 c2 hc2
      unfold keyNe
      omega

theorem ledger_pairwise_lt (p : Params) (cs : List Contract)
    (hrep : p.start_date.valid) (hb : ∀ c ∈ cs, c.birthdate.valid)
    (hids : List.Pairwise (fun c1 c2 => c1.contract ≠ c2.contract) cs) :
    List.Pairwise entryLT (calcLedger p cs) := by
  have hsorted : List.Sorted entryLE (calcLedger p cs) :=
    List.sorted_insertionSort entryLE (cs.flatMap (contractRows p))
  have hperm : (calcLedger p cs).Perm (cs.flatMap (contractRows p)) :=
    List.perm_insertionSort entryLE (cs.flatMap (contractRows p))
  have hne : List.Pairwise keyNe (calcLedger p cs) :=
    (List.Perm.pairwise_iff (fun h => keyNe_symm h) hperm).mpr
      (rows_pairwise_keyNe p cs hrep hb hids)
  have hand : List.Pairwise (fun e1 e2 => entryLE e1 e2 ∧ keyNe e1 e2) (calcLedger p cs) :=
    List.Pairwise.and hsorted hne
  refine hand.imp ?_
  intro e1 e2 h
  obtain ⟨h1, h2⟩ := h
  unfold entryLE at h1
  unfold keyNe at h2
  unfold entryLT
  omega

/-- Claim C1, counterexample: with report date 2024-01-01 (not a month end)
and a client already of pension age, the code returns the report date
itself as start date, not the month-end normalization 2024-01-31 that the
claim asserts. -/
theorem c1_start_date_cex :
    (cW.pension_start : ℤ) ≤ deltaYears cW.birthdate pW.start_date ∧
      calculate_start_date pW cW = ⟨2024, 1, 1⟩ ∧
      start_date_spec_claimed pW.start_date cW.birthdate cW.pension_start = ⟨2024, 1, 31⟩ ∧
      calculate_start_date pW cW ≠
        start_date_spec_claimed pW.start_date cW.birthdate cW.pension_start := by
  decide

/-- Claim C1, amended: the resolved start date is the report date unchanged
(no month-end normalization) when the whole elapsed years from birthdate to
report date reach the pension-start age, and otherwise the last day of the
month of birthdate plus pension-start-age years. -/
theorem c1_start_date_resolution (p : Params) (c : Contract) :
    (preprocess_contract_data p c).1 =
      start_date_amended p.start_date c.birthdate c.pension_start :=
  rfl

/-- Claim C2 (code bug): for any portfolio that generates at least one
payment row, the first call to `calculate` computes, stores and returns the
ledger, but the second call truth-tests the cached DataFrame, which raises
`ValueError` instead of returning the cached ledger. -/
theorem c2_second_call_raises (p : Params) (cs : List Contract)
    (hrows : cs.flatMap (contractRows p) ≠ []) :
    calculate p cs ⟨none⟩ = .ok (calcLedger p cs, ⟨some (calcLedger p cs)⟩) ∧
      calculate p cs ⟨some (calcLedger p cs)⟩ = .error .truthValueAmbiguous := by
  constructor
  · show (if cs.flatMap (contractRows p) = [] then
          (Except.error PyError.keyErrorSortColumn : Except PyError (List Entry × CalcState))
        else Except.ok (calcLedger p cs, CalcState.mk (some (calcLedger p cs)))) =
      Except.ok (calcLedger p cs, CalcState.mk (some (calcLedger p cs)))
    rw [if_neg hrows]
  · rfl

unseal Rat.mul Rat.inv Rat.add Rat.sub in
/-- Witness for claim C2 on a one-contract portfolio that generates a row. -/
theorem c2_second_call_raises_witness :
    calculate pW [cW] ⟨none⟩ = .ok (calcLedger pW [cW], ⟨some (calcLedger pW [cW])⟩) ∧
      calculate pW [cW] ⟨some (calcLedger pW [cW])⟩ = .error .truthValueAmbiguous :=
  c2_second_call_raises pW [cW] (by decide)

unseal Rat.mul Rat.inv Rat.add Rat.sub in
/-- Claim C3, counterexample: when the contract is already at pension age
and the report date 2024-01-01 is not a month end, the single emitted
payment date is 2024-01-01, which is not a month-end date. -/
theorem c3_month_end_cex :
    (contractRows pW cW).map Entry.payment_date = [⟨2024, 1, 1⟩] ∧
      ¬ (⟨2024, 1, 1⟩ : Date).is_month_end := by
  decide

/-- Claim C3, amended: the first emitted payment date equals the resolved
start date (which need not be a month end); every later payment date is the
month-end normalization of the previous date advanced by one calendar
month, is itself a month end, and is strictly greater than its predecessor,
so the sequence is strictly increasing. -/
theorem c3_payment_dates_advance (p : Params) (c : Contract)
    (hrep : p.start_date.valid) (hb : c.birthdate.valid) :
    (∀ e ∈ (contractRows p c).head?, e.payment_date = calculate_start_date p c) ∧
      List.Chain' (fun e1 e2 =>
        e2.payment_date = nextPaymentDate e1.payment_date ∧
          e2.payment_date.is_month_end ∧
          e1.payment_date.key < e2.payment_date.key) (contractRows p c) := by
  constructor
  · intro e he
    exact (payRows_head p c.contract (calculate_end_date p c)
      (genFuel (calculate_end_date p c) (calculate_start_date p c))
      (calculate_start_date p c) c.pension_amount e he).1
  · exact payRows_chain_dates p c.contract (calculate_end_date p c)
      (genFuel (calculate_end_date p c) (calculate_start_date p c))
      (calculate_start_date p c) c.pension_amount
      (calculate_start_date_valid p c hrep hb)

unseal Rat.mul Rat.inv Rat.add Rat.sub in
/-- Witness for the amended claim C3 at a concrete contract. -/
theorem c3_payment_dates_advance_witness :
    eW.payment_date = calculate_start_date pW cW ∧
      List.Chain' (fun e1 e2 =>
        e2.payment_date = nextPaymentDate e1.payment_date ∧
          e2.payment_date.is_month_end ∧
          e1.payment_date.key < e2.payment_date.key) (contractRows pW cW) :=
  ⟨(c3_payment_dates_advance pW cW (by decide) (by decide)).1 eW (by decide),
    (c3_payment_dates_advance pW cW (by decide) (by decide)).2⟩

/-- Claim C4: the first emitted amount is the 2-decimal rounding of the
initial pension amount times (1 + rate for the start month), and every
later amount is the 2-decimal rounding of the previous emitted amount times
(1 + rate for the entry's own month): indexing and rounding happen before
each entry is emitted and the rounded value is the next base. -/
theorem c4_amount_recurrence (p : Params) (c : Contract) :
    (∀ e ∈ (contractRows p c).head?,
        e.amount = round2 (c.pension_amount *
          (1 + rate_for_month p (calculate_start_date p c).month))) ∧
      List.Chain' (fun e1 e2 =>
        e2.amount = round2 (e1.amount * (1 + rate_for_month p e2.payment_date.month)))
        (contractRows p c) := by
  constructor
  · intro e he
    exact (payRows_head p c.contract (calculate_end_date p c)
      (genFuel (calculate_end_date p c) (calculate_start_date p c))
      (calculate_start_date p c) c.pension_amount e he).2.2
  · exact payRows_chain_amounts p c.contract (calculate_end_date p c)
      (genFuel (calculate_end_date p c) (calculate_start_date p c))
      (calculate_start_date p c) c.pension_amount

unseal Rat.mul Rat.inv Rat.add Rat.sub in
/-- Witness for claim C4 at a concrete contract. -/
theorem c4_amount_recurrence_witness :
    eW.amount = round2 (cW.pension_amount *
        (1 + rate_for_month pW (calculate_start_date pW cW).month)) ∧
      List.Chain' (fun e1 e2 =>
        e2.amount = round2 (e1.amount * (1 + rate_for_month pW e2.payment_date.month)))
        (contractRows pW cW) :=
  ⟨(c4_amount_recurrence pW cW).1 eW (by decide), (c4_amount_recurrence pW cW).2⟩

/-- Claim C5: every emitted payment date is at most the end date (the date
that first fails the loop test is never emitted), and a contract whose
start date already exceeds the end date contributes no entries. -/
theorem c5_dates_within_end (p : Params) (c : Contract) :
    (∀ e ∈ contractRows p c, e.payment_date.key ≤ (calculate_end_date p c).key) ∧
      ((calculate_end_date p c).key < (calculate_start_date p c).key →
        contractRows p c = []) := by
  constructor
  · intro e he
    exact payRows_le_endDate p c.contract (calculate_end_date p c)
      (genFuel (calculate_end_date p c) (calculate_start_date p c))
      (calculate_start_date p c) c.pension_amount e he
  · intro h
    exact payRows_empty p c.contract (calculate_end_date p c)
      (genFuel (calculate_end_date p c) (calculate_start_date p c))
      (calculate_start_date p c) c.pension_amount h

unseal Rat.mul Rat.inv Rat.add Rat.sub in
/-- Witness for claim C5 at concrete inputs: the emitted row of `cW` under
`pW` is within the end date, and under `pLow` (end date before start date)
no row is emitted. -/
theorem c5_dates_within_end_witness :
    eW.payment_date.key ≤ (calculate_end_date pW cW).key ∧ contractRows pLow cW = [] :=
  ⟨(c5_dates_within_end pW cW).1 eW (by decide),
    (c5_dates_within_end pLow cW).2 (by decide)⟩

/-- Claim C6: the resolved end date is exactly birthdate plus max-age years
plus one day, with no month-end normalization applied. -/
theorem c6_end_date_resolution (p : Params) (c : Contract) :
    (preprocess_contract_data p c).2 = end_date_spec c.birthdate p.max_age :=
  rfl

/-- Claim C7: the indexing mapping returns the configured rate for January
(month 1) and a zero rate for every other month; an unmapped month is not
an error, it contributes the default rate 0. -/
theorem c7_indexing_by_month (p : Params) :
    rate_for_month p 1 = p.indexing_rate ∧ ∀ m : ℕ, m ≠ 1 → rate_for_month p m = 0 := by
  constructor
  · rfl
  · intro m hm
    rw [rate_for_month_eq, if_neg hm]

/-- Witness for claim C7 at a concrete parameter set and month. -/
theorem c7_indexing_by_month_witness :
    rate_for_month pW 1 = pW.indexing_rate ∧ rate_for_month pW 2 = 0 :=
  ⟨(c7_indexing_by_month pW).1, (c7_indexing_by_month pW).2 2 (by decide)⟩

/-- Claim C8: in the assembled ledger, entry A precedes entry B exactly
when A's (payment date, contract number) pair is lexicographically smaller
than B's; the pair is the sole ordering key and is unique when contract
numbers are distinct. -/
theorem c8_ledger_order (p : Params) (cs : List Contract)
    (hrep : p.start_date.valid) (hb : ∀ c ∈ cs, c.birthdate.valid)
    (hids : List.Pairwise (fun c1 c2 => c1.contract ≠ c2.contract) cs)
    (i j : Fin (calcLedger p cs).length) :
    i < j ↔ entryLT ((calcLedger p cs).get i) ((calcLedger p cs).get j) := by
  have hpl := ledger_pairwise_lt p cs hrep hb hids
  constructor
  · intro hij
    exact List.pairwise_iff_get.mp hpl i j hij
  · intro hlt
    rcases lt_trichotomy i j with h | h | h
    · exact h
    · subst h
      unfold entryLT at hlt
      omega
    · have h2 := List.pairwise_iff_get.mp hpl j i h
      unfold entryLT at hlt h2
      omega

unseal Rat.mul Rat.inv Rat.add Rat.sub in
/-- Witness for claim C8 on a two-contract ledger. -/
theorem c8_ledger_order_witness :
    entryLT ((calcLedger pW [cW, cW2]).get ⟨0, by decide⟩)
      ((calcLedger pW [cW, cW2]).get ⟨1, by decide⟩) :=
  (c8_ledger_order pW [cW, cW2] (by decide) (by decide) (by decide)
    ⟨0, by decide⟩ ⟨1, by decide⟩).mp (by decide)

/-- Claim C9: the generation loop terminates after finitely many monthly
advances: with fuel `genFuel` the loop has already reached its exit
condition, so supplying any extra fuel does not change the result. -/
theorem c9_loop_terminates (p : Params) (cid : ℕ) (endD d : Date) (a : ℚ)
    (hd : d.valid) (extra : ℕ) :
    payRows p cid endD (genFuel endD d + extra) d a =
      payRows p cid endD (genFuel endD d) d a := by
  induction extra with
  | zero => rfl
  | succ k ihe =>
    rw [show genFuel endD d + (k + 1) = (genFuel endD d + k) + 1 by omega]
    rw [payRows_fuel_succ p cid endD (genFuel endD d + k) d a hd (by omega)]
    exact ihe

/-- Witness for claim C9 at a concrete start date. -/
theorem c9_loop_terminates_witness :
    payRows pW 1 (calculate_end_date pW cW)
        (genFuel (calculate_end_date pW cW) ⟨2024, 1, 1⟩ + 5) ⟨2024, 1, 1⟩ 1000 =
      payRows pW 1 (calculate_end_date pW cW)
        (genFuel (calculate_end_date pW cW) ⟨2024, 1, 1⟩) ⟨2024, 1, 1⟩ 1000 :=
  c9_loop_terminates pW 1 (calculate_end_date pW cW) ⟨2024, 1, 1⟩ 1000 (by decide) 5

/-- Claim C10: with a non-negative initial pension amount and a
non-negative indexing rate, every emitted amount is non-negative and the
sequence of emitted amounts is non-decreasing. -/
theorem c10_amounts_monotone (p : Params) (c : Contract)
    (ha : 0 ≤ c.pension_amount) (hr : 0 ≤ p.indexing_rate) :
    (∀ e ∈ contractRows p c, 0 ≤ e.amount) ∧
      List.Chain' (fun e1 e2 => e1.amount ≤ e2.amount) (contractRows p c) := by
  obtain ⟨h1, _, h3⟩ := payRows_amounts_mono p c.contract (calculate_end_date p c) hr
    (genFuel (calculate_end_date p c) (calculate_start_date p c))
    (calculate_start_date p c) c.pension_amount ha
  exact ⟨fun e he => (h1 e he).1, h3⟩

unseal Rat.mul Rat.inv Rat.add Rat.sub in
/-- Witness for claim C10 at a concrete contract. -/
theorem c10_amounts_monotone_witness :
    (0 : ℚ) ≤ eW.amount ∧
      List.Chain' (fun e1 e2 => e1.amount ≤ e2.amount) (contractRows pW cW) :=
  ⟨(c10_amounts_monotone pW cW (by decide) (by decide)).1 eW (by decide),
    (c10_amounts_monotone pW cW (by decide) (by decide)).2⟩

end Pension
